import Mathlib

/-!
# Verification of the dns-client message codec

This file gives a shallow embedding of the Go DNS client (`dns.go`) and
proves or refutes the behavioural claims made about it.

Modelling conventions:

* Go byte buffers (`bytes.Reader`) become a `List Nat` of byte values
  together with an explicit cursor position; reading a byte at `pos`
  corresponds to `buf[pos]?`.
* `ReadName`'s `for` loop plus its recursive self-call for compression
  pointers is embedded as a fuel-indexed structural recursion
  (`readNameLoop`); one unit of fuel is consumed per loop iteration and
  per pointer hop, so a result other than `.fuelOut` is reached by the
  Go code after exactly the modelled sequence of reads, and
  `.fuelOut`-for-every-fuel corresponds to an unbounded loop in Go.
* A Go `(value, error)` return is a `DecodeResult`: `.ok` carries the
  value and the final cursor position; `.eofErr` models an `io.EOF`
  error being returned; `.panicked` models a Go runtime panic
  (out-of-range string slice).
* `binary.Read` of fixed-width fields whose error result is discarded by
  the source is modelled by the `sloppy` readers, which return the zero
  value and advance the cursor past the consumed bytes exactly as
  `io.ReadFull` does on a `bytes.Reader`.
-/

/-- Result of a decoding step: on success, the decoded value and the
final cursor position; otherwise the error outcome of the Go code. -/
inductive DecodeResult (α : Type) where
  | ok (val : α) (pos : Nat)
  | eofErr
  | panicked
  | fuelOut
deriving DecidableEq, Repr

/-- Record type codes from the `const` block (`A = iota + 1`, ...). -/
def A : Nat := 1

def NS : Nat := 2

def MD : Nat := 3

def MF : Nat := 4

def CNAME : Nat := 5

def SOA : Nat := 6

def MB : Nat := 7

def MG : Nat := 8

def MR : Nat := 9

def NULL : Nat := 10

def WKS : Nat := 11

def PTR : Nat := 12

def HINFO : Nat := 13

def MINFO : Nat := 14

def MX : Nat := 15

def TXT : Nat := 16

/-- Class codes from the `const` block (`IN = iota + 1`, ...). -/
def IN : Nat := 1

def CS : Nat := 2

def CH : Nat := 3

def HS : Nat := 4

/-- The body of Go `ReadName`'s `for` loop. `acc` is the accumulated
`name` string (a byte list, each label followed by a `'.'` = 46).
The first fuel argument bounds the number of loop iterations and
pointer hops; the Go loop has no such bound, so Go behaviour at a given
input is whatever the model produces for every sufficiently large fuel,
and an input yielding `.fuelOut` for *every* fuel makes the Go code loop
without bound. -/
def readNameLoop : Nat → List Nat → Nat → List Nat → DecodeResult (List Nat)
  | 0, _, _, _ => .fuelOut
  | fuel + 1, buf, pos, acc =>
    match buf[pos]? with
    | none => .eofErr
    | some length =>
      if length &&& 0xc0 = 0xc0 then
        -- compressed name: 14-bit pointer, recursive ReadName at the target,
        -- then restore the reader to just after the 2 pointer bytes
        match buf[pos + 1]? with
        | none => .eofErr
        | some nextByte =>
          match readNameLoop fuel buf (((length &&& 0x3f) <<< 8) ||| nextByte) [] with
          | .ok cName _ => .ok (acc ++ cName) (pos + 2)
          | e => e
      else if length = 0 then
        -- `name = name[:len(name)-1]` : strips the trailing dot,
        -- panicking when `name` is empty
        if acc.isEmpty then .panicked else .ok acc.dropLast (pos + 1)
      else
        -- label := make([]byte, length); r.Read(label): io.EOF only when no
        -- byte remains, otherwise a (possibly partial, zero-padded) read
        if pos + 1 < buf.length then
          readNameLoop fuel buf (pos + 1 + min length (buf.length - (pos + 1)))
            (acc ++ ((buf.drop (pos + 1)).take length
              ++ List.replicate (length - (buf.length - (pos + 1))) 0) ++ [46])
        else .eofErr

/-- Go `ReadName(r)`, starting from cursor position `pos` with an empty
accumulated name. -/
def ReadName (fuel : Nat) (buf : List Nat) (pos : Nat) : DecodeResult (List Nat) :=
  readNameLoop fuel buf pos []

/-- Go `strings.Split(name, ".")` on a byte string: split on the byte
`46` (`'.'`). `Split("", ".")` is `[""]`, and a trailing separator
yields a trailing empty piece, exactly as in Go. -/
def splitOnDot : List Nat → List (List Nat)
  | [] => [[]]
  | b :: rest =>
    if b = 46 then [] :: splitOnDot rest
    else
      match splitOnDot rest with
      | [] => [[b]]
      | l :: ls => (b :: l) :: ls

/-- Go `SerializeName`: for each label of the dot-split, write one
length byte (`byte(len(label))`, i.e. the length mod 256) then the
label's bytes; terminate with a zero byte. The `bytes.Buffer` writes
are modelled by a `foldl` over an accumulated output list. -/
def SerializeName (name : List Nat) : List Nat :=
  ((splitOnDot name).foldl (fun buf label => buf ++ (label.length % 256) :: label) []) ++ [0]

/-- Flat description of the label block `SerializeName` emits before the
terminating zero byte. -/
def encodeLabels : List (List Nat) → List Nat
  | [] => []
  | l :: ls => (l.length % 256) :: (l ++ encodeLabels ls)

/-- The byte string `ReadName`'s loop accumulates for a label list:
each label followed by a dot. -/
def labelDots : List (List Nat) → List Nat
  | [] => []
  | l :: ls => l ++ 46 :: labelDots ls

/-- A well-formed domain name in the claims' sense: every dot-separated
label is 1 to 63 bytes long. -/
def WellFormedName (name : List Nat) : Prop :=
  ∀ l ∈ splitOnDot name, 1 ≤ l.length ∧ l.length ≤ 63

instance (name : List Nat) : Decidable (WellFormedName name) := by
  unfold WellFormedName; infer_instance

/-- The number of bytes a name occurrence at `pos` owns on the wire:
its label bytes up to and including either the terminating zero byte or
the 2-byte compression pointer.  By construction this function never
looks at the pointer's target. -/
def nameWireLen : Nat → List Nat → Nat → Option Nat
  | 0, _, _ => none
  | fuel + 1, buf, pos =>
    match buf[pos]? with
    | none => none
    | some length =>
      if length &&& 0xc0 = 0xc0 then
        if pos + 1 < buf.length then some 2 else none
      else if length = 0 then some 1
      else
        if pos + 1 < buf.length then
          match nameWireLen fuel buf (pos + 1 + min length (buf.length - (pos + 1))) with
          | some k => some (1 + min length (buf.length - (pos + 1)) + k)
          | none => none
        else none

/-- Go `DnsHeader`: six 16-bit fields. -/
structure DnsHeader where
  Id      : Nat
  Flags   : Nat
  QdCount : Nat
  AnCount : Nat
  NsCount : Nat
  ArCount : Nat
deriving DecidableEq, Repr

/-- Flag accessors of Go `DnsFlags` (a `uint16` bit-field). -/
def DnsFlags.QR (f : Nat) : Nat := f >>> 15

def DnsFlags.OpCode (f : Nat) : Nat := (f >>> 11) &&& 0b1111

def DnsFlags.AA (f : Nat) : Nat := (f >>> 10) &&& 0b1

def DnsFlags.TC (f : Nat) : Nat := (f >>> 9) &&& 0b1

def DnsFlags.RD (f : Nat) : Nat := (f >>> 8) &&& 0b1

def DnsFlags.RA (f : Nat) : Nat := (f >>> 7) &&& 0b1

def DnsFlags.Z (f : Nat) : Nat := (f >>> 4) &&& 0b111

def DnsFlags.RCode (f : Nat) : Nat := f &&& 0b1111

/-- Go `DnsQuestion`. -/
structure DnsQuestion where
  QName  : List Nat
  QType  : Nat
  QClass : Nat
deriving DecidableEq, Repr

/-- Go `DnsResourceRecord`.  The Go field `Type` is rendered `RType`
(`Type` is not a usable field name in Lean); `RData` holds raw bytes,
or for CNAME/NS the bytes of the decoded name, as in the source. -/
structure DnsResourceRecord where
  Name     : List Nat
  RType    : Nat
  Class    : Nat
  TTL      : Int
  RDLength : Nat
  RData    : List Nat
deriving DecidableEq, Repr

/-- Go `DnsRequest`. -/
structure DnsRequest where
  Header    : DnsHeader
  Questions : List DnsQuestion
deriving DecidableEq, Repr

/-- Go `DnsResponse`. -/
structure DnsResponse where
  Header    : DnsHeader
  Questions : List DnsQuestion
  Answers   : List DnsResourceRecord
deriving DecidableEq, Repr

/-- `binary.Read(r, binary.BigEndian, &x)` for a `uint16` whose error
result the source discards: on success the big-endian value and the
cursor advanced by 2; on a short buffer the destination keeps its zero
value and the cursor is left where `io.ReadFull` stopped (the end of
the buffer). -/
def readU16sloppy (buf : List Nat) (pos : Nat) : Nat × Nat :=
  match buf.drop pos with
  | a :: b :: _ => (a * 256 + b, pos + 2)
  | _ => (0, min (pos + 2) buf.length)

/-- Same for the `int32` TTL field: four big-endian bytes, interpreted
as a two's-complement signed 32-bit value. -/
def readI32sloppy (buf : List Nat) (pos : Nat) : Int × Nat :=
  match buf.drop pos with
  | a :: b :: c :: d :: _ =>
    let u := ((a * 256 + b) * 256 + c) * 256 + d
    (if u < 2 ^ 31 then (u : Int) else (u : Int) - 2 ^ 32, pos + 4)
  | _ => (0, min (pos + 4) buf.length)

/-- Go `ReadQuestion`: a name (whose error is propagated), then QType
and QClass via `binary.Read` with the errors ignored. -/
def ReadQuestion (fuel : Nat) (buf : List Nat) (pos : Nat) : DecodeResult DnsQuestion :=
  match ReadName fuel buf pos with
  | .ok name p1 =>
    let (qtype, p2) := readU16sloppy buf p1
    let (qclass, p3) := readU16sloppy buf p2
    .ok ⟨name, qtype, qclass⟩ p3
  | .eofErr => .eofErr
  | .panicked => .panicked
  | .fuelOut => .fuelOut

/-- One `uint16` big-endian field as written by `binary.Write`. -/
def writeU16 (v : Nat) : List Nat := [(v >>> 8) % 256, v % 256]

/-- `binary.Write(&reqBuf, binary.BigEndian, request.Header)`: the six
fields in declaration order, each as two big-endian bytes. -/
def serializeHeader (h : DnsHeader) : List Nat :=
  writeU16 h.Id ++ writeU16 h.Flags ++ writeU16 h.QdCount
    ++ writeU16 h.AnCount ++ writeU16 h.NsCount ++ writeU16 h.ArCount

/-- `binary.Read(r, binary.BigEndian, &header)`: twelve bytes from the
cursor decoded as six big-endian `uint16`s, or an error (`none`) on a
short buffer, in which case the destination is not written. -/
def readHeader (buf : List Nat) (pos : Nat) : Option (DnsHeader × Nat) :=
  match buf.drop pos with
  | b0 :: b1 :: b2 :: b3 :: b4 :: b5 :: b6 :: b7 :: b8 :: b9 :: b10 :: b11 :: _ =>
    some (⟨b0 * 256 + b1, b2 * 256 + b3, b4 * 256 + b5,
      b6 * 256 + b7, b8 * 256 + b9, b10 * 256 + b11⟩, pos + 12)
  | _ => none

/-- The zero value of `DnsHeader` (`var response DnsResponse`). -/
def zeroHeader : DnsHeader := ⟨0, 0, 0, 0, 0, 0⟩

/-- The header read in `main` (line 362): `binary.Read`'s error is
discarded, so a short buffer leaves the zero-valued header in place and
the cursor wherever `io.ReadFull` stopped. -/
def mainReadHeader (buf : List Nat) : DnsHeader × Nat :=
  match readHeader buf 0 with
  | some r => r
  | none => (zeroHeader, min 12 buf.length)

/-- Go `ReadResourceRecord`: owner name (error propagated), four fixed
fields via `binary.Read` with errors ignored, then either a name-valued
RDATA read through `ReadName` on the same cursor (CNAME/NS) or
`RDLength` raw bytes via `r.Read` (which only errors when no byte at
all remains, and silently zero-pads a partial read). -/
def ReadResourceRecord (fuel : Nat) (buf : List Nat) (pos : Nat) :
    DecodeResult DnsResourceRecord :=
  match ReadName fuel buf pos with
  | .ok name p1 =>
    let (rtype, p2) := readU16sloppy buf p1
    let (rclass, p3) := readU16sloppy buf p2
    let (ttl, p4) := readI32sloppy buf p3
    let (rdlength, p5) := readU16sloppy buf p4
    if rtype = CNAME ∨ rtype = NS then
      match ReadName fuel buf p5 with
      | .ok name2 p6 => .ok ⟨name, rtype, rclass, ttl, rdlength, name2⟩ p6
      | .eofErr => .eofErr
      | .panicked => .panicked
      | .fuelOut => .fuelOut
    else
      if p5 < buf.length then
        .ok ⟨name, rtype, rclass, ttl, rdlength,
          (buf.drop p5).take rdlength
            ++ List.replicate (rdlength - (buf.length - p5)) 0⟩
          (p5 + min rdlength (buf.length - p5))
      else .eofErr
  | .eofErr => .eofErr
  | .panicked => .panicked
  | .fuelOut => .fuelOut

/-- One failure kind per `panic` site of `ValidateResponseHeader`, in
source order. -/
inductive ValidationErr where
  | idMismatch
  | qdCountMismatch
  | noAnswer
  | nsCountMismatch
  | arCountMismatch
  | qrNotResponse
  | opCodeNotZero
  | aaNotZero
  | tcNotZero
  | rdMismatch
  | raNotSet
  | zNotZero
  | rcodeNotZero
deriving DecidableEq, Repr

/-- Go `ValidateResponseHeader`: the thirteen checks in source order;
the first failing check panics, which the model reports as `some` of
the corresponding failure kind; passing all checks returns `none`. -/
def ValidateResponseHeader (response : DnsResponse) (request : DnsRequest) :
    Option ValidationErr :=
  if response.Header.Id ≠ request.Header.Id then some .idMismatch
  else if response.Header.QdCount ≠ request.Header.QdCount then some .qdCountMismatch
  else if response.Header.AnCount = 0 then some .noAnswer
  else if response.Header.NsCount ≠ request.Header.NsCount then some .nsCountMismatch
  else if response.Header.ArCount ≠ request.Header.ArCount then some .arCountMismatch
  else if DnsFlags.QR response.Header.Flags ≠ 1 then some .qrNotResponse
  else if DnsFlags.OpCode response.Header.Flags ≠ 0 then some .opCodeNotZero
  else if DnsFlags.AA response.Header.Flags ≠ 0 then some .aaNotZero
  else if DnsFlags.TC response.Header.Flags ≠ 0 then some .tcNotZero
  else if DnsFlags.RD response.Header.Flags ≠ DnsFlags.RD request.Header.Flags
    then some .rdMismatch
  else if DnsFlags.RA response.Header.Flags ≠ 1 then some .raNotSet
  else if DnsFlags.Z response.Header.Flags ≠ 0 then some .zNotZero
  else if DnsFlags.RCode response.Header.Flags ≠ 0 then some .rcodeNotZero
  else none

/-- The claim's thirteen conditions, in the claim's order, each paired
with its failure kind.  This list follows the spec's words, to be
compared against `ValidateResponseHeader`. -/
def specHeaderChecks (response : DnsResponse) (request : DnsRequest) :
    List (Bool × ValidationErr) :=
  [ (response.Header.Id == request.Header.Id, .idMismatch),
    (response.Header.QdCount == request.Header.QdCount, .qdCountMismatch),
    (response.Header.AnCount != 0, .noAnswer),
    (response.Header.NsCount == request.Header.NsCount, .nsCountMismatch),
    (response.Header.ArCount == request.Header.ArCount, .arCountMismatch),
    (DnsFlags.QR response.Header.Flags == 1, .qrNotResponse),
    (DnsFlags.OpCode response.Header.Flags == 0, .opCodeNotZero),
    (DnsFlags.AA response.Header.Flags == 0, .aaNotZero),
    (DnsFlags.TC response.Header.Flags == 0, .tcNotZero),
    (DnsFlags.RD response.Header.Flags == DnsFlags.RD request.Header.Flags, .rdMismatch),
    (DnsFlags.RA response.Header.Flags == 1, .raNotSet),
    (DnsFlags.Z response.Header.Flags == 0, .zNotZero),
    (DnsFlags.RCode response.Header.Flags == 0, .rcodeNotZero) ]

/-- Scan an ordered check list, returning the first failure
(short-circuit), or `none` when every check passes. -/
def firstFailure : List (Bool × ValidationErr) → Option ValidationErr
  | [] => none
  | (c, e) :: rest => if c then firstFailure rest else some e


theorem foldl_encodeLabels (ls : List (List Nat)) :
    ∀ acc : List Nat,
      ls.foldl (fun buf label => buf ++ (label.length % 256) :: label) acc
        = acc ++ encodeLabels ls := by
  induction ls with
  | nil => intro acc; simp [encodeLabels]
  | cons l ls ih => intro acc; simp [List.foldl_cons, ih, encodeLabels]

theorem SerializeName_eq (name : List Nat) :
    SerializeName name = encodeLabels (splitOnDot name) ++ [0] := by
  simp [SerializeName, foldl_encodeLabels]

theorem splitOnDot_ne_nil (s : List Nat) : splitOnDot s ≠ [] := by
  cases s with
  | nil => simp [splitOnDot]
  | cons b rest =>
    simp only [splitOnDot]
    split
    · simp
    · split <;> simp_all

/-- Joining the dot-split with dots restores the string, with one extra
trailing dot. -/
theorem labelDots_splitOnDot (s : List Nat) :
    labelDots (splitOnDot s) = s ++ [46] := by
  induction s with
  | nil => simp [splitOnDot, labelDots]
  | cons b rest ih =>
    simp only [splitOnDot]
    split
    · simp_all [labelDots]
    · rcases h : splitOnDot rest with _ | ⟨l, ls⟩
      · exact absurd h (splitOnDot_ne_nil rest)
      · rw [h] at ih
        simp_all [labelDots]

theorem getElem?_of_drop_cons {buf t : List Nat} {pos x : Nat}
    (h : buf.drop pos = x :: t) : buf[pos]? = some x := by
  have := List.getElem?_drop buf pos 0
  rw [h] at this
  simpa using this.symm

/-- Reading the labels of a well-formed encoded name: if the bytes at
`pos` are `encodeLabels ls` followed by a zero byte, `ReadName`'s loop
consumes exactly those bytes and accumulates every label followed by a
dot, finally stripping the trailing dot. -/
theorem readNameLoop_encodeLabels (ls : List (List Nat)) :
    ∀ (fuel pos : Nat) (buf acc tailB : List Nat),
      buf.drop pos = encodeLabels ls ++ 0 :: tailB →
      (∀ l ∈ ls, 1 ≤ l.length ∧ l.length ≤ 63) →
      acc ≠ [] ∨ ls ≠ [] →
      readNameLoop (fuel + ls.length + 1) buf pos acc
        = .ok (acc ++ labelDots ls).dropLast (pos + (encodeLabels ls).length + 1) := by
  induction ls with
  | nil =>
    intro fuel pos buf acc tailB hd _ hne
    have hacc : acc ≠ [] := by tauto
    have hget : buf[pos]? = some 0 := getElem?_of_drop_cons (by simpa [encodeLabels] using hd)
    simp [readNameLoop, hget, hacc, labelDots, encodeLabels, List.isEmpty_iff]
  | cons l rest ih =>
    intro fuel pos buf acc tailB hd hwf _
    have hl := hwf l (by simp)
    have hd' : buf.drop pos
        = (l.length % 256) :: (l ++ (encodeLabels rest ++ 0 :: tailB)) := by
      simpa [encodeLabels] using hd
    have hmod : l.length % 256 = l.length := Nat.mod_eq_of_lt (by omega)
    have hget : buf[pos]? = some (l.length % 256) := getElem?_of_drop_cons hd'
    -- length byte is neither a pointer tag nor zero
    have hptr : ¬ (l.length % 256 &&& 0xc0 = 0xc0) := by
      have : l.length % 256 &&& 0xc0 ≤ l.length % 256 := Nat.and_le_left
      omega
    have hz : ¬ (l.length % 256 = 0) := by omega
    -- enough bytes remain for the whole label
    have hlen : l.length + (encodeLabels rest).length + tailB.length + 2 ≤ buf.length - pos := by
      have h0 := congrArg List.length hd'
      simp [List.length_drop] at h0
      omega
    have hposlt : pos + 1 < buf.length := by omega
    have hdrop1 : buf.drop (pos + 1) = l ++ (encodeLabels rest ++ 0 :: tailB) := by
      have h1 : (buf.drop pos).drop 1 = buf.drop (pos + 1) := by
        rw [List.drop_drop]
      rw [← h1, hd']
      simp
    have hmin : min (l.length % 256) (buf.length - (pos + 1)) = l.length := by
      rw [hmod]; omega
    have htake : (buf.drop (pos + 1)).take (l.length % 256) = l := by
      rw [hmod, hdrop1, List.take_left]
    have hrepl : List.replicate (l.length % 256 - (buf.length - (pos + 1))) (0 : Nat) = [] := by
      have h2 : l.length % 256 - (buf.length - (pos + 1)) = 0 := by omega
      simp [h2]
    have hdrop2 : buf.drop (pos + 1 + l.length) = encodeLabels rest ++ 0 :: tailB := by
      have h3 : (buf.drop (pos + 1)).drop l.length = buf.drop (pos + 1 + l.length) := by
        rw [List.drop_drop]
      rw [← h3, hdrop1, List.drop_left]
    have ihstep := ih fuel (pos + 1 + l.length) buf (acc ++ l ++ [46]) tailB hdrop2
      (fun x hx => hwf x (by simp [hx])) (by simp)
    have hstep : readNameLoop (fuel + (l :: rest).length + 1) buf pos acc
        = readNameLoop (fuel + rest.length + 1) buf
            (pos + 1 + min (l.length % 256) (buf.length - (pos + 1)))
            (acc ++ ((buf.drop (pos + 1)).take (l.length % 256)
              ++ List.replicate (l.length % 256 - (buf.length - (pos + 1))) 0) ++ [46]) := by
      show readNameLoop ((fuel + rest.length + 1) + 1) buf pos acc = _
      rw [readNameLoop]
      simp only [hget, if_neg hptr, if_neg hz, if_pos hposlt]
    rw [hstep, hmin, htake, hrepl]
    rw [show acc ++ (l ++ []) ++ [46] = acc ++ l ++ [46] by simp, ihstep]
    simp only [labelDots, encodeLabels, DecodeResult.ok.injEq, List.length_cons,
      List.length_append]
    constructor
    · simp
    · omega

/-- C2: for every well-formed domain name N (labels 1–63 bytes, total
encoded length at most 255 octets), `ReadName` applied to a cursor over
`SerializeName N` returns exactly N (dotted form, no trailing dot),
consuming the whole encoding.  The fuel `fuel + (number of labels) + 1`
says: any recursion budget of at least one loop iteration per label
plus the terminating zero byte suffices. -/
theorem readName_serializeName_roundtrip (name : List Nat) (fuel : Nat)
    (hwf : WellFormedName name)
    (hsize : (SerializeName name).length ≤ 255) :
    ReadName (fuel + (splitOnDot name).length + 1) (SerializeName name) 0
      = .ok name (SerializeName name).length := by
  have hne : splitOnDot name ≠ [] := splitOnDot_ne_nil name
  have hd : (SerializeName name).drop 0
      = encodeLabels (splitOnDot name) ++ 0 :: [] := by
    simp [SerializeName_eq]
  have hmain := readNameLoop_encodeLabels (splitOnDot name) fuel 0
    (SerializeName name) [] [] hd hwf (Or.inr hne)
  rw [ReadName, hmain]
  congr 1
  · rw [show ([] : List Nat) ++ labelDots (splitOnDot name)
        = labelDots (splitOnDot name) by simp,
      labelDots_splitOnDot, List.dropLast_concat]
  · rw [SerializeName_eq]
    simp

/-- Witness for C2 at the concrete name "echevarria.io". -/
theorem readName_serializeName_roundtrip_witness :
    WellFormedName [101, 99, 104, 101, 118, 97, 114, 114, 105, 97, 46, 105, 111]
    ∧ (SerializeName [101, 99, 104, 101, 118, 97, 114, 114, 105, 97, 46, 105, 111]).length ≤ 255
    ∧ ReadName 3 (SerializeName [101, 99, 104, 101, 118, 97, 114, 114, 105, 97, 46, 105, 111]) 0
      = .ok [101, 99, 104, 101, 118, 97, 114, 114, 105, 97, 46, 105, 111] 15 :=
  ⟨by decide, by decide,
    readName_serializeName_roundtrip
      [101, 99, 104, 101, 118, 97, 114, 114, 105, 97, 46, 105, 111] 0
      (by decide) (by decide)⟩

/-- Decoding the direct spelling of a name inside a larger message:
like the round-trip theorem, but with arbitrary trailing bytes after
the name's terminating zero byte. -/
theorem readName_direct_in_message (name : List Nat) (fuel : Nat) (tailB : List Nat)
    (hwf : WellFormedName name) :
    ReadName (fuel + (splitOnDot name).length + 1) (SerializeName name ++ tailB) 0
      = .ok name (SerializeName name).length := by
  have hne : splitOnDot name ≠ [] := splitOnDot_ne_nil name
  have hd : (SerializeName name ++ tailB).drop 0
      = encodeLabels (splitOnDot name) ++ 0 :: tailB := by
    simp [SerializeName_eq]
  have hmain := readNameLoop_encodeLabels (splitOnDot name) fuel 0
    (SerializeName name ++ tailB) [] tailB hd hwf (Or.inr hne)
  rw [ReadName, hmain]
  congr 1
  · rw [show ([] : List Nat) ++ labelDots (splitOnDot name)
        = labelDots (splitOnDot name) by simp,
      labelDots_splitOnDot, List.dropLast_concat]
  · rw [SerializeName_eq]
    simp

/-- C9: a pointer-referenced occurrence of a name decodes to the same
string as the directly spelled-out occurrence.  The message is the
direct encoding of the name followed by a 2-byte compression pointer
(`0xc0 0x00`) back to offset 0: decoding at offset 0 (direct) and at
the pointer (compressed) both return exactly the name. -/
theorem readName_compression_equiv (name : List Nat) (fuel : Nat)
    (hwf : WellFormedName name) :
    ReadName (fuel + (splitOnDot name).length + 1) (SerializeName name ++ [0xc0, 0]) 0
      = .ok name (SerializeName name).length
    ∧ ReadName (fuel + (splitOnDot name).length + 2) (SerializeName name ++ [0xc0, 0])
        (SerializeName name).length
      = .ok name ((SerializeName name).length + 2) := by
  have hdirect := readName_direct_in_message name fuel [0xc0, 0] hwf
  refine ⟨hdirect, ?_⟩
  have hb0 : (SerializeName name ++ [0xc0, 0])[(SerializeName name).length]?
      = some 0xc0 := by
    rw [List.getElem?_append_right (Nat.le_refl _)]
    simp
  have hb1 : (SerializeName name ++ [0xc0, 0])[(SerializeName name).length + 1]?
      = some 0 := by
    rw [List.getElem?_append_right (by omega)]
    have : (SerializeName name).length + 1 - (SerializeName name).length = 1 := by omega
    rw [this]
    simp
  show readNameLoop ((fuel + (splitOnDot name).length + 1) + 1)
      (SerializeName name ++ [0xc0, 0]) (SerializeName name).length []
    = .ok name ((SerializeName name).length + 2)
  rw [readNameLoop]
  simp only [hb0, hb1]
  rw [if_pos (by decide : (0xc0 : Nat) &&& 0xc0 = 0xc0)]
  rw [show ((0xc0 : Nat) &&& 0x3f) <<< 8 ||| 0 = 0 by decide]
  rw [ReadName] at hdirect
  rw [hdirect]
  simp

/-- Witness for C9 at the concrete name "echevarria.io", as in the
spec's test scenario. -/
theorem readName_compression_equiv_witness :
    WellFormedName [101, 99, 104, 101, 118, 97, 114, 114, 105, 97, 46, 105, 111]
    ∧ ReadName 3 (SerializeName [101, 99, 104, 101, 118, 97, 114, 114, 105, 97, 46, 105, 111]
        ++ [0xc0, 0]) 0
      = .ok [101, 99, 104, 101, 118, 97, 114, 114, 105, 97, 46, 105, 111] 15
    ∧ ReadName 4 (SerializeName [101, 99, 104, 101, 118, 97, 114, 114, 105, 97, 46, 105, 111]
        ++ [0xc0, 0]) 15
      = .ok [101, 99, 104, 101, 118, 97, 114, 114, 105, 97, 46, 105, 111] 17 :=
  ⟨by decide,
    (readName_compression_equiv
      [101, 99, 104, 101, 118, 97, 114, 114, 105, 97, 46, 105, 111] 0 (by decide)).1,
    (readName_compression_equiv
      [101, 99, 104, 101, 118, 97, 114, 114, 105, 97, 46, 105, 111] 0 (by decide)).2⟩

/-- C6: a successful name decode advances the cursor by exactly the
name's own wire bytes — through the terminating zero byte, or through
the 2-byte pointer when the name ends in a compression pointer (the
final position is then the pointer's position plus 2).  `nameWireLen`
never dereferences a pointer target, so none of the target's bytes are
consumed from the original cursor. -/
theorem readName_consumes_own_bytes (fuel : Nat) :
    ∀ (buf : List Nat) (pos : Nat) (acc name : List Nat) (p : Nat),
      readNameLoop fuel buf pos acc = .ok name p →
      pos ≤ p ∧ nameWireLen fuel buf pos = some (p - pos) := by
  induction fuel with
  | zero => intro buf pos acc name p h; simp [readNameLoop] at h
  | succ fuel ih =>
    intro buf pos acc name p h
    rw [readNameLoop] at h
    rcases hb : buf[pos]? with _ | length
    · rw [hb] at h; simp at h
    · rw [hb] at h
      simp only at h
      by_cases hptr : length &&& 0xc0 = 0xc0
      · rw [if_pos hptr] at h
        rcases hb1 : buf[pos + 1]? with _ | nextByte
        · rw [hb1] at h; simp at h
        · rw [hb1] at h
          simp only at h
          have hlt : pos + 1 < buf.length := by
            rw [List.getElem?_eq_some] at hb1
            exact hb1.1
          have hp : p = pos + 2 := by
            rcases hrec : readNameLoop fuel buf (((length &&& 0x3f) <<< 8) ||| nextByte) []
              with _ | _ | _ | _ <;> rw [hrec] at h <;> simp_all
          subst hp
          simp only [nameWireLen, hb, if_pos hptr, if_pos hlt, Option.some.injEq]
          omega
      · rw [if_neg hptr] at h
        by_cases hz : length = 0
        · rw [if_pos hz] at h
          by_cases hacc : acc.isEmpty
          · simp [hacc] at h
          · rw [if_neg hacc, DecodeResult.ok.injEq] at h
            obtain ⟨-, hp⟩ := h
            subst hp
            refine ⟨by omega, ?_⟩
            simp only [nameWireLen, hb]
            rw [if_neg hptr, if_pos hz]
            simp
        · rw [if_neg hz] at h
          by_cases hlt : pos + 1 < buf.length
          · rw [if_pos hlt] at h
            have hrec := ih buf (pos + 1 + min length (buf.length - (pos + 1))) _ name p h
            rcases hrec with ⟨hle, hwl⟩
            simp only [nameWireLen, hb, if_neg hptr, if_neg hz, if_pos hlt, hwl]
            constructor
            · omega
            · simp only [Option.some.injEq]
              omega
          · rw [if_neg hlt] at h
            simp at h

/-- Witness for C6: the name at offset 3 of the message
`[1,'a',0, 0xc0,0]` is a bare pointer back to offset 0; decoding it
succeeds with the cursor left at 5 = 3 + 2, and its wire length is the
2 pointer bytes only. -/
theorem readName_consumes_own_bytes_witness :
    readNameLoop 3 [1, 97, 0, 0xc0, 0] 3 [] = .ok [97] 5
    ∧ 3 ≤ 5 ∧ nameWireLen 3 [1, 97, 0, 0xc0, 0] 3 = some (5 - 3) :=
  ⟨by decide,
    (readName_consumes_own_bytes 3 [1, 97, 0, 0xc0, 0] 3 [] [97] 5 (by decide)).1,
    (readName_consumes_own_bytes 3 [1, 97, 0, 0xc0, 0] 3 [] [97] 5 (by decide)).2⟩

/-- C1 is false of the code: `ReadName` validates nothing about a
compression pointer.  First conjunct: on the message `[0xc0, 0x00]` —
a pointer at position 0 whose offset 0 is ≥ the current position — the
decoder recurses into itself forever: every recursion budget is
exhausted (`.fuelOut` for every fuel), the model of an unbounded loop;
no `MalformedPointer` rejection exists.  Second conjunct: a *forward*
pointer (offset 2 ≥ position 0) is happily followed and the decode
succeeds. -/
theorem readName_no_pointer_guard :
    (∀ fuel, ReadName fuel [0xc0, 0] 0 = .fuelOut)
    ∧ ReadName 3 [0xc0, 2, 1, 97, 0] 0 = .ok [97] 2 := by
  constructor
  · intro fuel
    induction fuel with
    | zero => rfl
    | succ fuel ih =>
      show readNameLoop (fuel + 1) [0xc0, 0] 0 [] = .fuelOut
      rw [readNameLoop]
      simp only [show ([0xc0, 0] : List Nat)[0]? = some 0xc0 from rfl,
        show ([0xc0, 0] : List Nat)[1]? = some 0 from rfl]
      rw [if_pos (by decide : (0xc0 : Nat) &&& 0xc0 = 0xc0)]
      rw [show ((0xc0 : Nat) &&& 0x3f) <<< 8 ||| 0 = 0 by decide]
      rw [ReadName] at ih
      rw [ih]
  · decide

/-- C10 is false of the code: decoding the wire form of the empty/root
name — a lone zero length byte with no preceding labels — runs
`name[:len(name)-1]` on the empty string, a Go runtime panic, instead
of returning the empty name. -/
theorem readName_root_panics : ReadName 1 [0] 0 = .panicked := by decide

/-- C10 amended: at a zero length byte, `ReadName`'s trailing-dot strip
panics exactly when no label bytes were accumulated before it; with at
least one accumulated label the strip is applied to a non-empty string
and the decode returns normally. -/
theorem readName_zero_byte_behavior (fuel pos : Nat) (buf acc : List Nat)
    (hb : buf[pos]? = some 0) :
    (acc = [] → readNameLoop (fuel + 1) buf pos acc = .panicked)
    ∧ (acc ≠ [] → readNameLoop (fuel + 1) buf pos acc = .ok acc.dropLast (pos + 1)) := by
  constructor
  · intro hacc
    subst hacc
    rw [readNameLoop]
    simp [hb]
  · intro hacc
    rw [readNameLoop]
    simp [hb, List.isEmpty_iff, hacc]

/-- Witness for the amended C10: the root name alone panics; after one
label ("a") the same zero byte returns the name with the trailing dot
stripped. -/
theorem readName_zero_byte_behavior_witness :
    (([0] : List Nat)[0]? = some 0 ∧ readNameLoop 1 [0] 0 [] = .panicked)
    ∧ (([1, 97, 0] : List Nat)[2]? = some 0
        ∧ readNameLoop 1 [1, 97, 0] 2 [97, 46] = .ok [97] 3) :=
  ⟨⟨by decide, (readName_zero_byte_behavior 0 0 [0] [] (by decide)).1 rfl⟩,
    ⟨by decide, (readName_zero_byte_behavior 0 2 [1, 97, 0] [97, 46] (by decide)).2
      (by decide)⟩⟩

theorem ite_none_iff_pass (c : Prop) [Decidable c] (e : ValidationErr)
    (rest : Option ValidationErr) :
    (if c then rest else some e) = none ↔ c ∧ rest = none := by
  split_ifs <;> simp_all

theorem ite_none_iff_fail (c : Prop) [Decidable c] (e : ValidationErr)
    (rest : Option ValidationErr) :
    (if c then some e else rest) = none ↔ ¬ c ∧ rest = none := by
  split_ifs <;> simp_all

/-- C3: the validator checks exactly the claim's thirteen conditions in
exactly the claim's order with first failure winning (short-circuit,
modelled by `firstFailure` over the ordered `specHeaderChecks` list),
and accepts (returns `none`) iff all thirteen conditions hold. -/
theorem validateResponseHeader_spec (response : DnsResponse) (request : DnsRequest) :
    ValidateResponseHeader response request
      = firstFailure (specHeaderChecks response request)
    ∧ (ValidateResponseHeader response request = none ↔
        (response.Header.Id = request.Header.Id
        ∧ response.Header.QdCount = request.Header.QdCount
        ∧ 0 < response.Header.AnCount
        ∧ response.Header.NsCount = request.Header.NsCount
        ∧ response.Header.ArCount = request.Header.ArCount
        ∧ DnsFlags.QR response.Header.Flags = 1
        ∧ DnsFlags.OpCode response.Header.Flags = 0
        ∧ DnsFlags.AA response.Header.Flags = 0
        ∧ DnsFlags.TC response.Header.Flags = 0
        ∧ DnsFlags.RD response.Header.Flags = DnsFlags.RD request.Header.Flags
        ∧ DnsFlags.RA response.Header.Flags = 1
        ∧ DnsFlags.Z response.Header.Flags = 0
        ∧ DnsFlags.RCode response.Header.Flags = 0)) := by
  constructor
  · simp only [specHeaderChecks, firstFailure, beq_iff_eq, bne_iff_ne,
      ValidateResponseHeader, ne_eq, ite_not]
  · simp only [ValidateResponseHeader, ne_eq, ite_not,
      ite_none_iff_pass, ite_none_iff_fail]
    simp [Nat.pos_iff_ne_zero]

theorem u16_roundtrip (v : Nat) (hv : v < 65536) :
    ((v >>> 8) % 256) * 256 + v % 256 = v := by
  rw [Nat.shiftRight_eq_div_pow, show (2 : Nat) ^ 8 = 256 from rfl]
  omega

/-- C8: serializing a header as six fixed-width big-endian 16-bit
fields in order id, flags, qdcount, ancount, nscount, arcount produces
exactly 12 bytes, and decoding those bytes recovers the header — id,
counts and flag bits — exactly. -/
theorem header_roundtrip (h : DnsHeader)
    (hId : h.Id < 65536) (hFlags : h.Flags < 65536) (hQd : h.QdCount < 65536)
    (hAn : h.AnCount < 65536) (hNs : h.NsCount < 65536) (hAr : h.ArCount < 65536) :
    (serializeHeader h).length = 12
    ∧ readHeader (serializeHeader h) 0 = some (h, 12) := by
  obtain ⟨i, f, q, an, ns, ar⟩ := h
  simp only at hId hFlags hQd hAn hNs hAr
  refine ⟨by simp [serializeHeader, writeU16], ?_⟩
  simp only [serializeHeader, writeU16, List.cons_append, List.nil_append,
    readHeader, List.drop_zero, Option.some.injEq, Prod.mk.injEq, DnsHeader.mk.injEq]
  exact ⟨⟨u16_roundtrip i hId, u16_roundtrip f hFlags, u16_roundtrip q hQd,
    u16_roundtrip an hAn, u16_roundtrip ns hNs, u16_roundtrip ar hAr⟩, trivial⟩

/-- Witness for C8 at the request header `main` builds:
id 12345, flags 0x0100 (RD=1), qdcount 1, other counts 0. -/
theorem header_roundtrip_witness :
    (serializeHeader ⟨12345, 0x0100, 1, 0, 0, 0⟩).length = 12
    ∧ readHeader (serializeHeader ⟨12345, 0x0100, 1, 0, 0, 0⟩) 0
      = some (⟨12345, 0x0100, 1, 0, 0, 0⟩, 12) :=
  header_roundtrip ⟨12345, 0x0100, 1, 0, 0, 0⟩
    (by decide) (by decide) (by decide) (by decide) (by decide) (by decide)

/-- C4 is false of the code: truncation is not rejected.  First
conjunct: a buffer shorter than 12 bytes makes `binary.Read` of the
header fail, but `main` discards the error, keeping the zero-valued
header and proceeding (no `Truncated` failure).  Second conjunct: a
question truncated in the middle of its fixed-width QType field decodes
without error, with zero-valued QType/QClass.  Third conjunct: a
resource record whose declared 4-byte RDATA is cut off after 1 byte is
returned successfully with a zero-padded partial RData. -/
theorem truncated_reads_not_rejected :
    mainReadHeader [0, 1, 2, 3, 4] = (zeroHeader, 5)
    ∧ ReadQuestion 2 [1, 97, 0] 0 = .ok ⟨[97], 0, 0⟩ 3
    ∧ ReadResourceRecord 2 [1, 97, 0, 0, 1, 0, 1, 0, 0, 0, 0, 0, 4, 9] 0
      = .ok ⟨[97], 1, 1, 0, 4, [9, 0, 0, 0]⟩ 14 :=
  ⟨by decide, by decide, by decide⟩

/-- C5's RDLength check does not exist: this CNAME record declares
RDLength 99 but its RDATA name consumes only 3 bytes, and decoding
succeeds anyway (no `RDataLengthMismatch`). -/
theorem readResourceRecord_no_rdlength_check :
    ReadResourceRecord 2 [1, 97, 0, 0, 5, 0, 1, 0, 0, 0, 0, 0, 99, 1, 98, 0] 0
      = .ok ⟨[97], 5, 1, 0, 99, [98]⟩ 16 := by
  decide

theorem readU16sloppy_snd (buf : List Nat) (pos : Nat) (h : pos + 2 ≤ buf.length) :
    (readU16sloppy buf pos).2 = pos + 2 := by
  rcases hd : buf.drop pos with _ | ⟨a, _ | ⟨b, t⟩⟩ <;>
    first
    | (simp [readU16sloppy, hd]; try omega)
    | (have hlen := congrArg List.length hd
       simp [List.length_drop] at hlen
       omega)

theorem readI32sloppy_snd (buf : List Nat) (pos : Nat) (h : pos + 4 ≤ buf.length) :
    (readI32sloppy buf pos).2 = pos + 4 := by
  rcases hd : buf.drop pos with _ | ⟨a, _ | ⟨b, _ | ⟨c, _ | ⟨d, t⟩⟩⟩⟩ <;>
    first
    | (simp [readI32sloppy, hd]; try omega)
    | (have hlen := congrArg List.length hd
       simp [List.length_drop] at hlen
       omega)

/-- C5 amended: for a record whose type field is CNAME or NS, the RDATA
is decoded through `ReadName` on the shared message-relative cursor (at
absolute position `p1 + 10` of the whole message, so compression
pointers inside RDATA resolve against the whole message), the decoded
name is stored as RData, and the record is accepted wherever that name
decode succeeds — with no comparison whatsoever between the bytes it
consumed and the declared RDLength. -/
theorem readResourceRecord_name_rdata (fuel : Nat) (buf : List Nat) (pos : Nat)
    (name name2 : List Nat) (p1 p2 : Nat)
    (h1 : ReadName fuel buf pos = .ok name p1)
    (hlen : p1 + 10 ≤ buf.length)
    (ht : (readU16sloppy buf p1).1 = CNAME ∨ (readU16sloppy buf p1).1 = NS)
    (h2 : ReadName fuel buf (p1 + 10) = .ok name2 p2) :
    ReadResourceRecord fuel buf pos
      = .ok ⟨name, (readU16sloppy buf p1).1, (readU16sloppy buf (p1 + 2)).1,
          (readI32sloppy buf (p1 + 4)).1, (readU16sloppy buf (p1 + 8)).1, name2⟩ p2 := by
  rcases he1 : readU16sloppy buf p1 with ⟨rtype, q2⟩
  have hq2 : q2 = p1 + 2 := by
    have := readU16sloppy_snd buf p1 (by omega)
    rw [he1] at this
    exact this
  subst hq2
  rcases he2 : readU16sloppy buf (p1 + 2) with ⟨rclass, q3⟩
  have hq3 : q3 = p1 + 4 := by
    have := readU16sloppy_snd buf (p1 + 2) (by omega)
    rw [he2] at this
    simpa using this
  subst hq3
  rcases he3 : readI32sloppy buf (p1 + 4) with ⟨ttl, q4⟩
  have hq4 : q4 = p1 + 8 := by
    have := readI32sloppy_snd buf (p1 + 4) (by omega)
    rw [he3] at this
    simpa using this
  subst hq4
  rcases he4 : readU16sloppy buf (p1 + 8) with ⟨rdl, q5⟩
  have hq5 : q5 = p1 + 10 := by
    have := readU16sloppy_snd buf (p1 + 8) (by omega)
    rw [he4] at this
    simpa using this
  subst hq5
  have ht' : rtype = CNAME ∨ rtype = NS := by
    rw [he1] at ht
    exact ht
  simp only [ReadResourceRecord, h1, he1, he2, he3, he4]
  rw [if_pos ht', h2]

/-- Witness for the amended C5: an NS record with declared RDLength 9
whose RDATA is a 2-byte compression pointer back to the owner name at
offset 0; the pointer resolves against the whole message, the decode
succeeds, and 2 consumed bytes ≠ 9 declared bytes. -/
theorem readResourceRecord_name_rdata_witness :
    ReadName 3 [1, 97, 0, 0, 2, 0, 1, 0, 0, 0, 1, 0, 9, 0xc0, 0] 0 = .ok [97] 3
    ∧ (readU16sloppy [1, 97, 0, 0, 2, 0, 1, 0, 0, 0, 1, 0, 9, 0xc0, 0] 3).1 = NS
    ∧ ReadName 3 [1, 97, 0, 0, 2, 0, 1, 0, 0, 0, 1, 0, 9, 0xc0, 0] 13 = .ok [97] 15
    ∧ ReadResourceRecord 3 [1, 97, 0, 0, 2, 0, 1, 0, 0, 0, 1, 0, 9, 0xc0, 0] 0
      = .ok ⟨[97], 2, 1, 1, 9, [97]⟩ 15 :=
  ⟨by decide, by decide, by decide,
    readResourceRecord_name_rdata 3 [1, 97, 0, 0, 2, 0, 1, 0, 0, 0, 1, 0, 9, 0xc0, 0]
      0 [97] [97] 3 15 (by decide) (by decide) (Or.inr (by decide)) (by decide)⟩

/-- C7 is false of the code: `SerializeName` rejects nothing.  The
empty name is not rejected — it is encoded as `[0, 0]` — and a label of
64 bytes does not fail with `LabelTooLong` — its length byte 64 is
emitted as-is. -/
theorem serializeName_rejects_nothing :
    SerializeName [] = [0, 0]
    ∧ SerializeName (List.replicate 64 97) = 64 :: (List.replicate 64 97 ++ [0]) :=
  ⟨by decide, by decide⟩

/-- C7 amended: `SerializeName` accepts every input; its output is, for
each label of the dot-split (empty labels included), one length byte
equal to the label's length mod 256 followed by the label's raw bytes,
with a single terminating zero byte. -/
theorem serializeName_emission (name : List Nat) :
    SerializeName name
      = (splitOnDot name).foldr (fun l out => (l.length % 256) :: (l ++ out)) [0] := by
  rw [SerializeName_eq]
  induction splitOnDot name with
  | nil => simp [encodeLabels]
  | cons l ls ih => simp [encodeLabels, ih]
